import Mathlib

/-!
Verification of the GSO trajectory ingestion script (`scripts/docent_ingest.py`).

The event-stream-to-message conversion `convert_openhands_history_to_messages`
and the metadata/scores aggregation of `build_agent_run` are modelled as pure
Lean functions over a shallow embedding of the Python data (dictionaries become
association lists, `None` becomes `Option`/a JSON `null` value, Python string
truthiness becomes an emptiness test).  The documented properties of the spec
are then proved or refuted against these definitions.
-/

/-- One OpenHands event record, as read by the converter.  Each field mirrors
one dictionary access in the source: `source` is `event.get("source", "")`,
`action` is `event.get("action")` (absent modelled as `none`), `observation` is
`event.get("observation")`, `args` is `event.get("args", ...)` with string
values, `content` is `event.get("content")`, `message` is
`event.get("message", "")`, and `extras` is the string rendering
`str(event.get("extras", ...))` when the `extras` key is present. -/
structure Event where
  source : String := ""
  action : Option String := none
  observation : Option String := none
  args : List (String × String) := []
  content : Option String := none
  message : String := ""
  extras : Option String := none
deriving DecidableEq

/-- The human-readable rendering attached to a tool call
(`ToolCallContent(format=..., content=...)` in the source). -/
structure ToolCallContent where
  format : String
  content : String
deriving DecidableEq

/-- A structured tool invocation (`ToolCall(id=..., function=..., arguments=...,
view=...)` in the source).  Argument mappings are association lists. -/
structure ToolCall where
  id : String
  function : String
  arguments : List (String × String)
  view : ToolCallContent
deriving DecidableEq

/-- An output message of the converter: one of the three Docent message kinds
the source constructs. -/
inductive Message where
  | UserMessage (content : String)
  | AssistantMessage (content : String) (tool_calls : List ToolCall)
  | ToolMessage (content : String) (tool_call_id : String) (function : String)
deriving DecidableEq

/-- The converter's loop state: the `pending_tool_call` slot, a pair of
function name and call identifier, and the `call_counter`. -/
structure ConvState where
  pending : Option (String × String)
  counter : Nat
deriving DecidableEq

/-- Python `a or b` on strings: the empty string is falsy. -/
def pyOr (a b : String) : String := if a = "" then b else a

/-- Python `args.get(k, "")` on a string-valued dictionary. -/
def argsGet (args : List (String × String)) (k : String) : String :=
  match args.find? (fun kv => kv.1 == k) with
  | some kv => kv.2
  | none => ""

/-- The call identifier the source renders with an f-string:
`call_` followed by the decimal counter value. -/
def mkId (k : Nat) : String := "call_" ++ Nat.repr k

/-- The preview of written file content (line 121 of the source): the first 500
characters followed by `...` when the content exceeds 500 characters. -/
def writePreview (c : String) : String :=
  if c.length > 500 then c.take 500 ++ "..." else c

/-- Truncation of long observation output (lines 194 and 195 of the source). -/
def truncateObservation (c : String) : String :=
  if c.length > 5000 then c.take 5000 ++ "\n... (truncated)" else c

/-- The local variable `content` of the loop body:
`event.get("content") or event.get("message", "")`. -/
def eventText (e : Event) : String := pyOr (e.content.getD "") e.message

/-- Shared shape of the four invocation-emitting branches: assign a fresh call
identifier, bump the counter, emit one `AssistantMessage` carrying the single
invocation, and set the pending slot. -/
def invokeMsg (s : ConvState) (thought fn : String)
    (arguments : List (String × String)) (viewText : String) :
    ConvState × List Message :=
  (⟨some (fn, mkId s.counter), s.counter + 1⟩,
   [Message.AssistantMessage thought
      [⟨mkId s.counter, fn, arguments, ⟨"markdown", viewText⟩⟩]])

/-- The agent-action dispatch (lines 69 to 174 of the source), reached when
`source == "agent"` and the action tag is truthy and is not `"message"`. -/
def agentDispatch (s : ConvState) (e : Event) (a : String) :
    ConvState × List Message :=
  let thought := argsGet e.args "thought"
  if a = "run" then
    let command := argsGet e.args "command"
    invokeMsg s thought "bash" [("command", command)]
      ("```bash\n" ++ command ++ "\n```")
  else if a = "read" then
    let path := argsGet e.args "path"
    invokeMsg s thought "read_file" [("path", path)]
      ("Reading file: `" ++ path ++ "`")
  else if a = "write" then
    let path := argsGet e.args "path"
    let fc := writePreview (argsGet e.args "content")
    invokeMsg s thought "write_file" [("path", path)]
      ("Writing to file: `" ++ path ++ "`\n```\n" ++ fc ++ "\n```")
  else if a = "think" then
    (⟨none, s.counter⟩, [Message.AssistantMessage ("**Thinking:** " ++ thought) []])
  else if a = "finish" then
    let ft := pyOr (argsGet e.args "thought") thought
    (⟨none, s.counter⟩, [Message.AssistantMessage ("**Finished:** " ++ ft) []])
  else
    invokeMsg s thought a e.args ("Action: " ++ a)

/-- The observation result text (lines 189 to 191 of the source): the event
content, falling back to the rendering of `extras` when the content is
empty. -/
def obsText (e : Event) : String :=
  let obs0 := e.content.getD ""
  if obs0 = "" then
    match e.extras with
    | some ex => ex
    | none => obs0
  else obs0

/-- The observation branch (lines 185 to 205 of the source): emit a
`ToolMessage` only when the observation tag is truthy and a call is pending. -/
def observeStep (s : ConvState) (e : Event) : ConvState × List Message :=
  match e.observation, s.pending with
  | some o, some p =>
    if o = "" then (s, [])
    else
      (⟨none, s.counter⟩,
       [Message.ToolMessage (truncateObservation (obsText e)) p.2 p.1])
  | _, _ => (s, [])

/-- One iteration of the conversion loop over a single event, returning the
updated state and the (zero or one) messages appended for that event. -/
def stepEvent (s : ConvState) (e : Event) : ConvState × List Message :=
  if e.action = some "system" then (s, [])
  else if e.source = "user" ∧ e.action = some "message" then
    let msg := pyOr (argsGet e.args "content") (eventText e)
    (s, if msg = "" then [] else [Message.UserMessage msg])
  else
    match e.action with
    | some a =>
      if e.source = "agent" ∧ a ≠ "" ∧ a ≠ "message" then agentDispatch s e a
      else if e.source = "agent" ∧ a = "message" then
        let msg := pyOr (argsGet e.args "content") (eventText e)
        (⟨none, s.counter⟩,
         if msg = "" then [] else [Message.AssistantMessage msg []])
      else observeStep s e
    | none => observeStep s e

/-- The conversion loop: fold `stepEvent` over the history, collecting the
emitted messages. -/
def convertGo : ConvState → List Event → List Message
  | _, [] => []
  | s, e :: rest => (stepEvent s e).2 ++ convertGo (stepEvent s e).1 rest

/-- The state of the converter after processing a prefix of the history. -/
def stateGo : ConvState → List Event → ConvState
  | s, [] => s
  | s, e :: rest => stateGo (stepEvent s e).1 rest

/-- The initial loop state: no pending call, counter 1. -/
def initState : ConvState := ⟨none, 1⟩

/-- `convert_openhands_history_to_messages` of the source: a fresh state is
created on every invocation. -/
def convert_openhands_history_to_messages (h : List Event) : List Message :=
  convertGo initState h

/-- A JSON value, the data the aggregator of `build_agent_run` manipulates.
Python `None` is `null`; numbers only ever pass through the aggregator
unexamined, so an integer constructor suffices. -/
inductive JVal where
  | null
  | bool (b : Bool)
  | str (s : String)
  | num (n : Int)
  | arr (xs : List JVal)
  | obj (kvs : List (String × JVal))

/-- Dictionary lookup: `d.get(k)` returning `none` when the key is absent. -/
def jLookup (kvs : List (String × JVal)) (k : String) : Option JVal :=
  match kvs.find? (fun kv => kv.1 == k) with
  | some kv => some kv.2
  | none => none

/-- Dictionary lookup with a default: `d.get(k, dflt)`. -/
def jGetD (kvs : List (String × JVal)) (k : String) (dflt : JVal) : JVal :=
  (jLookup kvs k).getD dflt

/-- View a JSON value as a dictionary (the aggregator only calls `.get` on
values that are dictionaries in well-formed reports). -/
def asObj : JVal → List (String × JVal)
  | .obj kvs => kvs
  | _ => []

/-- View a JSON value as an array. -/
def asArr : JVal → List JVal
  | .arr xs => xs
  | _ => []

/-- Whether a value is the model of Python `None`. -/
def jIsNull : JVal → Bool
  | .null => true
  | _ => false

/-- Python truthiness of a JSON value. -/
def jTruthy : JVal → Bool
  | .null => false
  | .bool b => b
  | .str s => s ≠ ""
  | .num n => n ≠ 0
  | .arr xs => !xs.isEmpty
  | .obj kvs => !kvs.isEmpty

/-- Python dictionary assignment `d[k] = v`: replace the binding in place when
the key is present, append it otherwise. -/
def jSet : List (String × JVal) → String → JVal → List (String × JVal)
  | [], k, v => [(k, v)]
  | kv :: rest, k, v =>
    if kv.1 = k then (k, v) :: rest else kv :: jSet rest k v

/-- Python `instance_id in instance_sets.get(key, [])`: membership of a string
in a JSON array. -/
def jmemStr (v : JVal) (s : String) : Bool :=
  (asArr v).any (fun x =>
    match x with
    | .str t => t == s
    | _ => false)

/-- Step 6 of the aggregation (lines 276 to 293 of the source): the scores
mapping before the run-report override.  `logsReport` is `none` when no logs
directory was supplied; otherwise it is the dictionary returned by
`load_gso_report`, which is empty when the instance report is missing. -/
def scoresFromReport (logsReport : Option (List (String × JVal))) :
    List (String × JVal) :=
  let scores0 : List (String × JVal) := [("status", JVal.str "unknown")]
  match logsReport with
  | none => scores0
  | some rep =>
    if rep.isEmpty then scores0
    else
      let base : List (String × JVal) :=
        [("test_passed", jGetD rep "test_passed" (JVal.bool false)),
         ("opt_base", jGetD rep "opt_base" (JVal.bool false)),
         ("opt_commit", jGetD rep "opt_commit" (JVal.bool false)),
         ("opt_main", jGetD rep "opt_main" (JVal.bool false)),
         ("patch_applied", jGetD rep "patch_successfully_applied" (JVal.bool false))]
      let os := jGetD rep "opt_stats" (JVal.obj [])
      if jTruthy os then
        base ++
          [("gm_speedup_patch_base",
            (jLookup (asObj os) "gm_speedup_patch_base").getD JVal.null),
           ("gm_speedup_patch_commit",
            (jLookup (asObj os) "gm_speedup_patch_commit").getD JVal.null)]
      else base

/-- Step 7 of the aggregation (lines 296 to 307 of the source): the run-report
status override, checking the five id sets in their fixed precedence. -/
def statusOverride (instance_id : String)
    (runReport : Option (List (String × JVal)))
    (scores : List (String × JVal)) : List (String × JVal) :=
  match runReport with
  | none => scores
  | some rr =>
    if rr.isEmpty then scores
    else
      let isets := asObj (jGetD rr "instance_sets" (JVal.obj []))
      if jmemStr (jGetD isets "passed_ids" (JVal.arr [])) instance_id then
        jSet scores "status" (JVal.str "passed")
      else if jmemStr (jGetD isets "opt_base_ids" (JVal.arr [])) instance_id then
        jSet scores "status" (JVal.str "opt_base")
      else if jmemStr (jGetD isets "test_failed_ids" (JVal.arr [])) instance_id then
        jSet scores "status" (JVal.str "test_failed")
      else if jmemStr (jGetD isets "patch_failed_ids" (JVal.arr [])) instance_id then
        jSet scores "status" (JVal.str "patch_failed")
      else if jmemStr (jGetD isets "error_ids" (JVal.arr [])) instance_id then
        jSet scores "status" (JVal.str "error")
      else scores

/-- The full scores mapping of `build_agent_run`. -/
def buildScores (instance_id : String)
    (logsReport : Option (List (String × JVal)))
    (runReport : Option (List (String × JVal))) : List (String × JVal) :=
  statusOverride instance_id runReport (scoresFromReport logsReport)

/-- Lines 253 to 257 of the source: the `agent_class` and `llm_model` fields,
added only when the trajectory metadata dictionary is truthy; the values may
be the model of Python `None` and are then removed by the final filter. -/
def metaAgentBlock (traj_data : List (String × JVal)) : List (String × JVal) :=
  if jTruthy (jGetD traj_data "metadata" (JVal.obj [])) then
    [("agent_class",
      (jLookup (asObj (jGetD traj_data "metadata" (JVal.obj [])))
        "agent_class").getD JVal.null),
     ("llm_model",
      (jLookup (asObj (jGetD (asObj (jGetD traj_data "metadata" (JVal.obj [])))
        "llm_config" (JVal.obj []))) "model").getD JVal.null)]
  else []

/-- Lines 260 to 262 of the source: the metrics block copied verbatim. -/
def metaMetricsBlock (traj_data : List (String × JVal)) : List (String × JVal) :=
  if jTruthy (jGetD traj_data "metrics" (JVal.obj [])) then
    [("metrics", jGetD traj_data "metrics" (JVal.obj []))]
  else []

/-- Lines 265 to 268 of the source: the repository and API identifiers. -/
def metaInstanceBlock (traj_data : List (String × JVal)) : List (String × JVal) :=
  if jTruthy (jGetD traj_data "instance" (JVal.obj [])) then
    [("repo",
      (jLookup (asObj (jGetD traj_data "instance" (JVal.obj []))) "repo").getD
        JVal.null),
     ("api",
      (jLookup (asObj (jGetD traj_data "instance" (JVal.obj []))) "api").getD
        JVal.null)]
  else []

/-- Lines 271 to 273 of the source: the patch-presence flag. -/
def metaPatchBlock (traj_data : List (String × JVal)) : List (String × JVal) :=
  if jTruthy (jGetD traj_data "test_result" (JVal.obj [])) then
    [("has_patch",
      JVal.bool (jTruthy (jGetD (asObj (jGetD traj_data "test_result"
        (JVal.obj []))) "git_patch" JVal.null)))]
  else []

/-- Lines 311 and 312 of the source: the optional model name. -/
def metaModelBlock (model_name : Option String) : List (String × JVal) :=
  match model_name with
  | some m => if m = "" then [] else [("model_name", JVal.str m)]
  | none => []

/-- The metadata mapping built by `build_agent_run` (lines 247 to 315 of the
source), given the trajectory record's instance identifier and its raw
dictionary.  The final comprehension removes top-level `None` values. -/
def build_agent_run_metadata (instance_id : String)
    (traj_data : List (String × JVal))
    (logsReport : Option (List (String × JVal)))
    (runReport : Option (List (String × JVal)))
    (model_name : Option String) : List (String × JVal) :=
  ((("instance_id", JVal.str instance_id) ::
      (metaAgentBlock traj_data ++ metaMetricsBlock traj_data ++
       metaInstanceBlock traj_data ++ metaPatchBlock traj_data)) ++
    (("scores", JVal.obj (buildScores instance_id logsReport runReport)) ::
      metaModelBlock model_name)).filter (fun kv => !jIsNull kv.2)

/-- The numeric value of a decimal digit character, inverse of
`Nat.digitChar` on the digits `0` to `9`. -/
def chDigit (c : Char) : Nat :=
  if c = '1' then 1 else if c = '2' then 2 else if c = '3' then 3 else
  if c = '4' then 4 else if c = '5' then 5 else if c = '6' then 6 else
  if c = '7' then 7 else if c = '8' then 8 else if c = '9' then 9 else 0

/-- The number denoted by a list of decimal digit characters. -/
def digitsVal (l : List Char) : Nat := l.foldl (fun a c => 10 * a + chDigit c) 0

theorem chDigit_digitChar {n : Nat} (h : n < 10) :
    chDigit (Nat.digitChar n) = n := by
  interval_cases n <;> rfl

theorem toDigitsCore_succ (fuel n : Nat) (ds : List Char) :
    Nat.toDigitsCore 10 (fuel + 1) n ds =
      if n / 10 = 0 then Nat.digitChar (n % 10) :: ds
      else Nat.toDigitsCore 10 fuel (n / 10) (Nat.digitChar (n % 10) :: ds) :=
  rfl

theorem toDigitsCore_acc (fuel : Nat) :
    ∀ (n : Nat) (ds : List Char),
      Nat.toDigitsCore 10 fuel n ds = Nat.toDigitsCore 10 fuel n [] ++ ds := by
  induction fuel with
  | zero => intro n ds; simp [Nat.toDigitsCore]
  | succ fuel ih =>
    intro n ds
    rw [toDigitsCore_succ, toDigitsCore_succ]
    by_cases h : n / 10 = 0
    · simp [h]
    · simp only [h, if_false]
      rw [ih (n / 10) [Nat.digitChar (n % 10)],
        ih (n / 10) (Nat.digitChar (n % 10) :: ds), List.append_assoc,
        List.singleton_append]

theorem toDigitsCore_fuel (n : Nat) :
    ∀ (fuel fuel' : Nat) (ds : List Char), n < fuel → n < fuel' →
      Nat.toDigitsCore 10 fuel n ds = Nat.toDigitsCore 10 fuel' n ds := by
  induction n using Nat.strong_induction_on with
  | _ n ih =>
    intro fuel fuel' ds hf hf'
    match fuel, fuel' with
    | f + 1, f' + 1 =>
      rw [toDigitsCore_succ, toDigitsCore_succ]
      by_cases h : n / 10 = 0
      · simp [h]
      · simp only [h, if_false]
        have hn : 0 < n := by omega
        have hdiv : n / 10 < n := Nat.div_lt_self hn (by decide)
        exact ih (n / 10) hdiv f f' _ (by omega) (by omega)

/-- The decimal digit list of a natural number, written with structural
division recursion instead of the fuel of `Nat.toDigitsCore`. -/
def natDigits (n : Nat) : List Char :=
  if _ : n < 10 then [Nat.digitChar n]
  else natDigits (n / 10) ++ [Nat.digitChar (n % 10)]
decreasing_by exact Nat.div_lt_self (by omega) (by decide)

theorem toDigits_eq_natDigits (n : Nat) : Nat.toDigits 10 n = natDigits n := by
  induction n using Nat.strong_induction_on with
  | _ n ih =>
    rw [natDigits]
    by_cases h : n < 10
    · have hdiv : n / 10 = 0 := Nat.div_eq_of_lt h
      have hmod : n % 10 = n := Nat.mod_eq_of_lt h
      rw [dif_pos h]
      show Nat.toDigitsCore 10 (n + 1) n [] = _
      rw [toDigitsCore_succ, if_pos hdiv, hmod]
    · have hdiv : n / 10 ≠ 0 := by omega
      have hlt : n / 10 < n := Nat.div_lt_self (by omega) (by decide)
      rw [dif_neg h]
      show Nat.toDigitsCore 10 (n + 1) n [] = _
      rw [toDigitsCore_succ, if_neg hdiv, toDigitsCore_acc,
        toDigitsCore_fuel (n / 10) n (n / 10 + 1) [] hlt (Nat.lt_succ_self _)]
      rw [← ih (n / 10) hlt]
      rfl

theorem digitsVal_append_digit (l : List Char) (c : Char) :
    digitsVal (l ++ [c]) = 10 * digitsVal l + chDigit c := by
  simp [digitsVal, List.foldl_append]

theorem digitsVal_natDigits (n : Nat) : digitsVal (natDigits n) = n := by
  induction n using Nat.strong_induction_on with
  | _ n ih =>
    rw [natDigits]
    by_cases h : n < 10
    · rw [dif_pos h]
      show 10 * 0 + chDigit (Nat.digitChar n) = n
      rw [chDigit_digitChar h]
      omega
    · rw [dif_neg h]
      have hlt : n / 10 < n := Nat.div_lt_self (by omega) (by decide)
      rw [digitsVal_append_digit, ih (n / 10) hlt,
        chDigit_digitChar (Nat.mod_lt n (by decide))]
      omega

theorem natRepr_injective {n m : Nat} (h : Nat.repr n = Nat.repr m) : n = m := by
  have hd : Nat.toDigits 10 n = Nat.toDigits 10 m := by
    have h2 := congrArg String.data h
    simpa [Nat.repr, List.asString] using h2
  rw [toDigits_eq_natDigits, toDigits_eq_natDigits] at hd
  have h3 := congrArg digitsVal hd
  rwa [digitsVal_natDigits, digitsVal_natDigits] at h3

theorem mkId_injective {n m : Nat} (h : mkId n = mkId m) : n = m := by
  apply natRepr_injective
  apply String.ext
  have h2 := congrArg String.data h
  simpa [mkId, String.data_append] using h2

/-- The call identifiers carried by one message (an `AssistantMessage` carries
the identifiers of its tool calls, other messages carry none). -/
def msgCallIds : Message → List String
  | .AssistantMessage _ tcs => tcs.map (fun tc => tc.id)
  | _ => []

/-- All call identifiers emitted by the invocation-bearing assistant messages
of a sequence, in emission order. -/
def allCallIds (ms : List Message) : List String := (ms.map msgCallIds).flatten

/-- Whether a message is a `ToolMessage`. -/
def isToolMessage : Message → Bool
  | .ToolMessage _ _ _ => true
  | _ => false

/-- Whether a message is an `AssistantMessage` carrying a tool invocation. -/
def isInvocationAssistant : Message → Bool
  | .AssistantMessage _ tcs => !tcs.isEmpty
  | _ => false

/-- The call identifiers consumed by the `ToolMessage`s of a sequence, in
order. -/
def consumedIds (ms : List Message) : List String :=
  ms.filterMap (fun m =>
    match m with
    | .ToolMessage _ cid _ => some cid
    | _ => none)

/-- Invariant on the loop state: the counter started at 1, and a pending call
identifier was minted by an earlier counter value. -/
def PendingSane (s : ConvState) : Prop :=
  1 ≤ s.counter ∧ ∀ fn cid, s.pending = some (fn, cid) →
    ∃ k, 1 ≤ k ∧ k < s.counter ∧ cid = mkId k

/-- Invariant relating a loop state to the messages the remaining run emits:
the fresh identifiers form the contiguous block starting at the counter, every
assistant message carries at most one call, consumed identifiers are distinct,
and every `ToolMessage` either consumes the incoming pending call or an
identifier minted by a strictly earlier assistant message of the run. -/
def Emitted (s : ConvState) (ms : List Message) : Prop :=
  (∃ n, allCallIds ms = (List.range' s.counter n).map mkId)
  ∧ (∀ m ∈ ms, (msgCallIds m).length ≤ 1)
  ∧ (consumedIds ms).Nodup
  ∧ (∀ j (hj : j < ms.length) c cid fn,
       ms.get ⟨j, hj⟩ = Message.ToolMessage c cid fn →
       (∃ fn₀, s.pending = some (fn₀, cid)) ∨
       ∃ i, i < j ∧ ∃ (hi : i < ms.length), cid ∈ msgCallIds (ms.get ⟨i, hi⟩))

theorem observeStep_shape (s : ConvState) (e : Event) :
    observeStep s e = (s, []) ∨
    (∃ c fn₀ cid₀, s.pending = some (fn₀, cid₀) ∧
      observeStep s e = (⟨none, s.counter⟩, [Message.ToolMessage c cid₀ fn₀])) := by
  rcases ho : e.observation with _ | o
  · left; simp [observeStep, ho]
  · rcases hp : s.pending with _ | ⟨fn₀, cid₀⟩
    · left; simp [observeStep, ho, hp]
    · by_cases h : o = ""
      · left; simp [observeStep, ho, hp, h]
      · right
        refine ⟨truncateObservation (obsText e), fn₀, cid₀, rfl, ?_⟩
        simp [observeStep, ho, hp, h]

theorem agentDispatch_shape (s : ConvState) (e : Event) (a : String) :
    (∃ t fn arg v, agentDispatch s e a =
      (⟨some (fn, mkId s.counter), s.counter + 1⟩,
       [Message.AssistantMessage t [⟨mkId s.counter, fn, arg, v⟩]])) ∨
    (∃ c, agentDispatch s e a = (⟨none, s.counter⟩, [Message.AssistantMessage c []])) := by
  unfold agentDispatch invokeMsg
  dsimp only
  split
  · exact Or.inl ⟨_, _, _, _, rfl⟩
  · split
    · exact Or.inl ⟨_, _, _, _, rfl⟩
    · split
      · exact Or.inl ⟨_, _, _, _, rfl⟩
      · split
        · exact Or.inr ⟨_, rfl⟩
        · split
          · exact Or.inr ⟨_, rfl⟩
          · exact Or.inl ⟨_, _, _, _, rfl⟩

theorem stepEvent_shape (s : ConvState) (e : Event) :
    stepEvent s e = (s, []) ∨
    (∃ c, stepEvent s e = (s, [Message.UserMessage c])) ∨
    (∃ t fn arg v, stepEvent s e =
      (⟨some (fn, mkId s.counter), s.counter + 1⟩,
       [Message.AssistantMessage t [⟨mkId s.counter, fn, arg, v⟩]])) ∨
    (∃ c, stepEvent s e = (⟨none, s.counter⟩, [Message.AssistantMessage c []])) ∨
    stepEvent s e = (⟨none, s.counter⟩, []) ∨
    (∃ c fn₀ cid₀, s.pending = some (fn₀, cid₀) ∧
      stepEvent s e = (⟨none, s.counter⟩, [Message.ToolMessage c cid₀ fn₀])) := by
  by_cases h1 : e.action = some "system"
  · left; simp [stepEvent, h1]
  · by_cases h2 : e.source = "user" ∧ e.action = some "message"
    · by_cases h3 : pyOr (argsGet e.args "content") (eventText e) = ""
      · left; simp [stepEvent, h2.1, h2.2, h3]
      · right; left
        exact ⟨pyOr (argsGet e.args "content") (eventText e),
          by simp [stepEvent, h2.1, h2.2, h3]⟩
    · rcases ha : e.action with _ | a
      · rcases observeStep_shape s e with h | ⟨c, fn₀, cid₀, hp, h⟩
        · left; rw [← h]; simp [stepEvent, ha]
        · right; right; right; right; right
          refine ⟨c, fn₀, cid₀, hp, ?_⟩
          rw [← h]; simp [stepEvent, ha]
      · have h1x : a ≠ "system" := fun hs => h1 (by rw [ha, hs])
        have h2x : ¬(e.source = "user" ∧ a = "message") :=
          fun hx => h2 ⟨hx.1, by rw [ha, hx.2]⟩
        by_cases h4 : e.source = "agent" ∧ a ≠ "" ∧ a ≠ "message"
        · rcases agentDispatch_shape s e a with ⟨t, fn, arg, v, h⟩ | ⟨c, h⟩
          · right; right; left
            refine ⟨t, fn, arg, v, ?_⟩
            rw [← h]; simp [stepEvent, ha, h1x, h2x, h4]
          · right; right; right; left
            refine ⟨c, ?_⟩
            rw [← h]; simp [stepEvent, ha, h1x, h2x, h4]
        · by_cases h5 : e.source = "agent" ∧ a = "message"
          · by_cases h6 : pyOr (argsGet e.args "content") (eventText e) = ""
            · right; right; right; right; left
              simp [stepEvent, ha, h1x, h2x, h4, h5, h6]
            · right; right; right; left
              exact ⟨pyOr (argsGet e.args "content") (eventText e),
                by simp [stepEvent, ha, h1x, h2x, h4, h5, h6]⟩
          · rcases observeStep_shape s e with h | ⟨c, fn₀, cid₀, hp, h⟩
            · left; rw [← h]; simp [stepEvent, ha, h1x, h2x, h4, h5]
            · right; right; right; right; right
              refine ⟨c, fn₀, cid₀, hp, ?_⟩
              rw [← h]; simp [stepEvent, ha, h1x, h2x, h4, h5]

theorem mem_allCallIds_of_get {ms : List Message} {i : Nat} (hi : i < ms.length)
    {cid : String} (h : cid ∈ msgCallIds (ms.get ⟨i, hi⟩)) :
    cid ∈ allCallIds ms :=
  List.mem_flatten.2 ⟨msgCallIds (ms.get ⟨i, hi⟩),
    List.mem_map_of_mem _ (ms.get_mem _ _), h⟩

theorem consumed_mem_get {ms : List Message} {cid : String}
    (h : cid ∈ consumedIds ms) :
    ∃ j, ∃ (hj : j < ms.length), ∃ c fn,
      ms.get ⟨j, hj⟩ = Message.ToolMessage c cid fn := by
  rcases List.mem_filterMap.1 h with ⟨m, hm, hf⟩
  rcases List.mem_iff_get.1 hm with ⟨⟨j, hj⟩, hget⟩
  cases m with
  | UserMessage c => simp at hf
  | AssistantMessage c tcs => simp at hf
  | ToolMessage c cid2 fn =>
    have : cid2 = cid := by simpa using hf
    subst this
    exact ⟨j, hj, c, fn, hget⟩

theorem consumed_subset_ids {s : ConvState} {ms : List Message}
    (hE : Emitted s ms) (hp : s.pending = none) :
    consumedIds ms ⊆ allCallIds ms := by
  intro cid hc
  rcases consumed_mem_get hc with ⟨j, hj, c, fn, hget⟩
  rcases hE.2.2.2 j hj c cid fn hget with ⟨fn₀, hps⟩ | ⟨i, _, hi, hmem⟩
  · rw [hp] at hps; cases hps
  · exact mem_allCallIds_of_get hi hmem

theorem clause4_shift {A B : String → Prop} {m : Message} {ms : List Message}
    (h0 : ∀ c cid fn, m = Message.ToolMessage c cid fn → B cid)
    (hmap : ∀ cid, A cid → B cid ∨ cid ∈ msgCallIds m)
    (htail : ∀ j (hj : j < ms.length) c cid fn,
       ms.get ⟨j, hj⟩ = Message.ToolMessage c cid fn →
       A cid ∨ ∃ i, i < j ∧ ∃ (hi : i < ms.length),
         cid ∈ msgCallIds (ms.get ⟨i, hi⟩)) :
    ∀ j (hj : j < (m :: ms).length) c cid fn,
       (m :: ms).get ⟨j, hj⟩ = Message.ToolMessage c cid fn →
       B cid ∨ ∃ i, i < j ∧ ∃ (hi : i < (m :: ms).length),
         cid ∈ msgCallIds ((m :: ms).get ⟨i, hi⟩) := by
  intro j hj c cid fn hm
  match j with
  | 0 => exact Or.inl (h0 c cid fn (by simpa using hm))
  | j + 1 =>
    have hj2 : j < ms.length := by simpa using hj
    have hm2 : ms.get ⟨j, hj2⟩ = Message.ToolMessage c cid fn := by simpa using hm
    rcases htail j hj2 c cid fn hm2 with hA | ⟨i, hij, hi, hmem⟩
    · rcases hmap cid hA with hB | hmem
      · exact Or.inl hB
      · exact Or.inr ⟨0, by omega, by simp, by simpa using hmem⟩
    · refine Or.inr ⟨i + 1, by omega, by simpa using hi, ?_⟩
      simpa using hmem

theorem emitted_nil (s : ConvState) : Emitted s [] := by
  refine ⟨⟨0, rfl⟩, by simp, by simp [consumedIds], ?_⟩
  intro j hj
  simp at hj

theorem emitted_weaken {s : ConvState} {ms : List Message}
    (h : Emitted ⟨none, s.counter⟩ ms) : Emitted s ms := by
  obtain ⟨h1, h2, h3, h4⟩ := h
  refine ⟨h1, h2, h3, ?_⟩
  intro j hj c cid fn hm
  rcases h4 j hj c cid fn hm with ⟨fn₀, hp⟩ | hr
  · cases hp
  · exact Or.inr hr

theorem emitted_cons_user {s : ConvState} {ms : List Message} (c : String)
    (h : Emitted s ms) : Emitted s (Message.UserMessage c :: ms) := by
  obtain ⟨⟨n, hn⟩, h2, h3, h4⟩ := h
  refine ⟨⟨n, by simpa [allCallIds, msgCallIds] using hn⟩, ?_, ?_, ?_⟩
  · intro m hm
    rcases List.mem_cons.1 hm with rfl | hm
    · simp [msgCallIds]
    · exact h2 m hm
  · simpa [consumedIds] using h3
  · exact clause4_shift (fun c2 cid fn hm => by cases hm) (fun cid hA => Or.inl hA) h4

theorem emitted_cons_plain {s : ConvState} {ms : List Message} (c : String)
    (h : Emitted ⟨none, s.counter⟩ ms) :
    Emitted s (Message.AssistantMessage c [] :: ms) := by
  obtain ⟨⟨n, hn⟩, h2, h3, h4⟩ := h
  refine ⟨⟨n, by simpa [allCallIds, msgCallIds] using hn⟩, ?_, ?_, ?_⟩
  · intro m hm
    rcases List.mem_cons.1 hm with rfl | hm
    · simp [msgCallIds]
    · exact h2 m hm
  · simpa [consumedIds] using h3
  · refine clause4_shift (fun c2 cid fn hm => by cases hm) ?_ h4
    intro cid hA
    rcases hA with ⟨fn₀, hp⟩
    cases hp

theorem emitted_cons_invoc {s : ConvState} {ms : List Message}
    (t fn : String) (arg : List (String × String)) (v : ToolCallContent)
    (h : Emitted ⟨some (fn, mkId s.counter), s.counter + 1⟩ ms) :
    Emitted s
      (Message.AssistantMessage t [⟨mkId s.counter, fn, arg, v⟩] :: ms) := by
  obtain ⟨⟨n, hn⟩, h2, h3, h4⟩ := h
  refine ⟨⟨n + 1, ?_⟩, ?_, ?_, ?_⟩
  · rw [List.range'_succ, List.map_cons]
    rw [show allCallIds (Message.AssistantMessage t [⟨mkId s.counter, fn, arg, v⟩] :: ms) =
        mkId s.counter :: allCallIds ms from rfl]
    rw [hn]
  · intro m hm
    rcases List.mem_cons.1 hm with rfl | hm
    · simp [msgCallIds]
    · exact h2 m hm
  · simpa [consumedIds] using h3
  · refine clause4_shift (fun c2 cid fn2 hm => by cases hm) ?_ h4
    intro cid hA
    rcases hA with ⟨fn₀, hp⟩
    have hcid : cid = mkId s.counter := by
      have := hp
      simp only [ConvState.pending] at this
      injection this with h5
      injection h5 with h6 h7
      exact h7.symm
    right
    simp [msgCallIds, hcid]

theorem emitted_cons_tool {s : ConvState} {ms : List Message}
    (hS : PendingSane s) {c fn₀ cid₀ : String}
    (hp : s.pending = some (fn₀, cid₀))
    (h : Emitted ⟨none, s.counter⟩ ms) :
    Emitted s (Message.ToolMessage c cid₀ fn₀ :: ms) := by
  obtain ⟨⟨n, hn⟩, h2, h3, h4⟩ := h
  have hsub : consumedIds ms ⊆ allCallIds ms :=
    consumed_subset_ids ⟨⟨n, hn⟩, h2, h3, h4⟩ rfl
  refine ⟨⟨n, by simpa [allCallIds, msgCallIds] using hn⟩, ?_, ?_, ?_⟩
  · intro m hm
    rcases List.mem_cons.1 hm with rfl | hm
    · simp [msgCallIds]
    · exact h2 m hm
  · rw [show consumedIds (Message.ToolMessage c cid₀ fn₀ :: ms) =
        cid₀ :: consumedIds ms from rfl]
    refine List.Nodup.cons ?_ h3
    intro hmem
    have hidsmem : cid₀ ∈ allCallIds ms := hsub hmem
    rw [hn] at hidsmem
    rcases List.mem_map.1 hidsmem with ⟨k, hk, hkid⟩
    rcases hS.2 fn₀ cid₀ hp with ⟨k₀, hk₀1, hk₀2, hk₀3⟩
    have : k = k₀ := mkId_injective (by rw [hkid, hk₀3])
    subst this
    have hkr := (List.mem_range'_1).1 hk
    dsimp only at hkr
    omega
  · refine clause4_shift ?_ ?_ h4
    · intro c2 cid fn hm
      injection hm with e1 e2 e3
      exact ⟨fn₀, by rw [hp, e2]⟩
    · intro cid hA
      rcases hA with ⟨fn₁, hp1⟩
      cases hp1

theorem pendingSane_none_counter {s : ConvState} (hS : PendingSane s) :
    PendingSane ⟨none, s.counter⟩ := by
  refine ⟨hS.1, ?_⟩
  intro fn2 cid2 hp2
  cases hp2

theorem pendingSane_step {s : ConvState} (e : Event) (hS : PendingSane s) :
    PendingSane (stepEvent s e).1 := by
  rcases stepEvent_shape s e with h | ⟨c, h⟩ | ⟨t, fn, arg, v, h⟩ | ⟨c, h⟩ | h |
    ⟨c, fn₀, cid₀, hp, h⟩
  · rw [h]; exact hS
  · rw [h]; exact hS
  · rw [h]
    refine ⟨?_, ?_⟩
    · show 1 ≤ s.counter + 1
      omega
    · intro fn2 cid2 hp2
      have hp3 : some (fn, mkId s.counter) = some (fn2, cid2) := hp2
      injection hp3 with h5
      injection h5 with h6 h7
      refine ⟨s.counter, hS.1, ?_, h7.symm⟩
      show s.counter < s.counter + 1
      omega
  · rw [h]; exact pendingSane_none_counter hS
  · rw [h]; exact pendingSane_none_counter hS
  · rw [h]; exact pendingSane_none_counter hS

theorem emitted_convertGo : ∀ (evs : List Event) (s : ConvState),
    PendingSane s → Emitted s (convertGo s evs) := by
  intro evs
  induction evs with
  | nil => intro s _; exact emitted_nil s
  | cons e rest ih =>
    intro s hS
    have hS2 := pendingSane_step e hS
    rw [show convertGo s (e :: rest) =
        (stepEvent s e).2 ++ convertGo (stepEvent s e).1 rest from rfl]
    rcases stepEvent_shape s e with h | ⟨c, h⟩ | ⟨t, fn, arg, v, h⟩ | ⟨c, h⟩ | h |
      ⟨c, fn₀, cid₀, hp, h⟩ <;> rw [h] at hS2 ⊢ <;> dsimp only
    · exact ih s hS
    · exact emitted_cons_user c (ih s hS)
    · exact emitted_cons_invoc t fn arg v (ih _ hS2)
    · exact emitted_cons_plain c (ih _ hS2)
    · exact emitted_weaken (ih _ hS2)
    · exact emitted_cons_tool hS hp (ih _ hS2)

theorem length_filter_tool (ms : List Message) :
    (ms.filter isToolMessage).length = (consumedIds ms).length := by
  induction ms with
  | nil => rfl
  | cons m ms ih =>
    cases m <;>
      simp [consumedIds, isToolMessage, List.filter_cons, List.filterMap_cons] <;>
      simpa [consumedIds] using ih

theorem length_filter_invoc (ms : List Message)
    (h : ∀ m ∈ ms, (msgCallIds m).length ≤ 1) :
    (ms.filter isInvocationAssistant).length = (allCallIds ms).length := by
  induction ms with
  | nil => rfl
  | cons m ms ih =>
    have hm := h m (List.mem_cons_self m ms)
    have ht := ih (fun m2 hm2 => h m2 (List.mem_cons_of_mem m hm2))
    cases m with
    | UserMessage c =>
      simpa [allCallIds, msgCallIds, isInvocationAssistant, List.filter_cons]
        using ht
    | ToolMessage c cid fn =>
      simpa [allCallIds, msgCallIds, isInvocationAssistant, List.filter_cons]
        using ht
    | AssistantMessage c tcs =>
      cases tcs with
      | nil =>
        simpa [allCallIds, msgCallIds, isInvocationAssistant, List.filter_cons]
          using ht
      | cons tc tcs2 =>
        have htcs : tcs2 = [] := by
          cases tcs2 with
          | nil => rfl
          | cons tc2 tcs3 => simp [msgCallIds] at hm
        subst htcs
        simp only [allCallIds, List.map_cons, List.flatten_cons,
          isInvocationAssistant, List.filter_cons]
        simp [msgCallIds, allCallIds] at ht ⊢
        omega

theorem nodup_mkId_range (c n : Nat) :
    (((List.range' c n).map mkId)).Nodup :=
  (List.nodup_range' c n).map (fun a b hab => mkId_injective hab)

theorem flatten_nodup_disjoint {L : List (List String)}
    (hnd : L.flatten.Nodup) {i j : Nat} (hi : i < L.length) (hj : j < L.length)
    (hij : i < j) {a : String} (ha : a ∈ L.get ⟨i, hi⟩)
    (hb : a ∈ L.get ⟨j, hj⟩) : False := by
  have hdrop : L.drop j = L.get ⟨j, hj⟩ :: L.drop (j + 1) := by
    rw [List.get_eq_getElem]
    exact List.drop_eq_getElem_cons hj
  have hnd2 : ((L.take j).flatten ++
      (L.get ⟨j, hj⟩ :: L.drop (j + 1)).flatten).Nodup := by
    rw [← List.flatten_append, ← hdrop, List.take_append_drop]
    exact hnd
  have hdisj := List.disjoint_of_nodup_append hnd2
  have hmem1 : a ∈ (L.take j).flatten := by
    apply List.mem_flatten.2
    refine ⟨L.get ⟨i, hi⟩, ?_, ha⟩
    have hij2 : i < (L.take j).length := by
      rw [List.length_take]
      omega
    have hgt : (L.take j).get ⟨i, hij2⟩ = L.get ⟨i, hi⟩ := by
      rw [List.get_eq_getElem, List.get_eq_getElem]
      exact List.getElem_take L
    rw [← hgt]
    exact (L.take j).get_mem _ _
  have hmem2 : a ∈ (L.get ⟨j, hj⟩ :: L.drop (j + 1)).flatten := by
    rw [List.flatten_cons]
    exact List.mem_append_left _ hb
  exact hdisj hmem1 hmem2

/-- C1: for every event history, the converted sequence contains at most as
many `ToolMessage`s as invocation-bearing `AssistantMessage`s; every
`ToolMessage.tool_call_id` equals the identifier of exactly one strictly
earlier message of the sequence (necessarily an invocation-bearing
`AssistantMessage`, the only kind carrying identifiers); no identifier is
consumed by two `ToolMessage`s; and the identifiers emitted within one
conversion are the monotonic counter block `call_1`, `call_2`, and so on,
never reused. -/
theorem c1_toolmessage_invariants (h : List Event) :
    ((convert_openhands_history_to_messages h).filter isToolMessage).length ≤
      ((convert_openhands_history_to_messages h).filter
        isInvocationAssistant).length
    ∧ (∀ j (hj : j < (convert_openhands_history_to_messages h).length) c cid fn,
        (convert_openhands_history_to_messages h).get ⟨j, hj⟩ =
          Message.ToolMessage c cid fn →
        ∃! i : Nat, i < j ∧
          ∃ (hi : i < (convert_openhands_history_to_messages h).length),
            cid ∈ msgCallIds ((convert_openhands_history_to_messages h).get ⟨i, hi⟩))
    ∧ (consumedIds (convert_openhands_history_to_messages h)).Nodup
    ∧ ∃ n, allCallIds (convert_openhands_history_to_messages h) =
        (List.range' 1 n).map mkId := by
  have hS : PendingSane initState := ⟨Nat.le_refl 1, fun fn cid hp => by cases hp⟩
  have hE : Emitted initState (convert_openhands_history_to_messages h) :=
    emitted_convertGo h initState hS
  obtain ⟨⟨n, hn⟩, h2, h3, h4⟩ := hE
  have hsub : consumedIds (convert_openhands_history_to_messages h) ⊆
      allCallIds (convert_openhands_history_to_messages h) :=
    consumed_subset_ids ⟨⟨n, hn⟩, h2, h3, h4⟩ rfl
  have hnd : (List.map msgCallIds (convert_openhands_history_to_messages h)).flatten.Nodup := by
    rw [show (List.map msgCallIds (convert_openhands_history_to_messages h)).flatten =
        allCallIds (convert_openhands_history_to_messages h) from rfl, hn]
    exact nodup_mkId_range _ n
  have key : ∀ (cid : String) (p q : Nat)
      (hp : p < (convert_openhands_history_to_messages h).length)
      (hq : q < (convert_openhands_history_to_messages h).length), p < q →
      cid ∈ msgCallIds ((convert_openhands_history_to_messages h).get ⟨p, hp⟩) →
      cid ∈ msgCallIds ((convert_openhands_history_to_messages h).get ⟨q, hq⟩) →
      False := by
    intro cid p q hp hq hpq hcp hcq
    have hlen : (List.map msgCallIds (convert_openhands_history_to_messages h)).length =
        (convert_openhands_history_to_messages h).length := List.length_map _ _
    have hp2 : p < (List.map msgCallIds (convert_openhands_history_to_messages h)).length := by
      rw [hlen]; exact hp
    have hq2 : q < (List.map msgCallIds (convert_openhands_history_to_messages h)).length := by
      rw [hlen]; exact hq
    have hgp : (List.map msgCallIds (convert_openhands_history_to_messages h)).get ⟨p, hp2⟩ =
        msgCallIds ((convert_openhands_history_to_messages h).get ⟨p, hp⟩) := by
      rw [List.get_eq_getElem, List.get_eq_getElem, List.getElem_map]
    have hgq : (List.map msgCallIds (convert_openhands_history_to_messages h)).get ⟨q, hq2⟩ =
        msgCallIds ((convert_openhands_history_to_messages h).get ⟨q, hq⟩) := by
      rw [List.get_eq_getElem, List.get_eq_getElem, List.getElem_map]
    exact flatten_nodup_disjoint hnd hp2 hq2 hpq (hgp ▸ hcp) (hgq ▸ hcq)
  refine ⟨?_, ?_, h3, ⟨n, hn⟩⟩
  · rw [length_filter_tool, length_filter_invoc _ h2]
    exact (List.subperm_of_subset h3 hsub).length_le
  · intro j hj c cid fn hm
    rcases h4 j hj c cid fn hm with ⟨fn₀, hp⟩ | ⟨i, hij, hi, hmem⟩
    · cases hp
    · refine ⟨i, ⟨hij, hi, hmem⟩, ?_⟩
      rintro i2 ⟨hij2, hi2, hmem2⟩
      by_contra hne
      rcases Nat.lt_or_ge i2 i with hlt | hge
      · exact key cid i2 i hi2 hi hlt hmem2 hmem
      · have hlt2 : i < i2 := by omega
        exact key cid i i2 hi hi2 hlt2 hmem hmem2

/-- Witness for C1 at the concrete three-event history: the `ToolMessage` at
position 2 consumes `call_1`, minted by exactly one earlier message. -/
theorem c1_toolmessage_invariants_witness :
    ∃! i : Nat, i < 2 ∧
      ∃ (hi : i < (convert_openhands_history_to_messages
            [{ source := "user", action := some "message",
               args := [("content", "fix bug")] },
             { source := "agent", action := some "run",
               args := [("thought", "run tests"), ("command", "pytest")] },
             { observation := some "run", content := some "2 passed" }]).length),
        "call_1" ∈ msgCallIds ((convert_openhands_history_to_messages
            [{ source := "user", action := some "message",
               args := [("content", "fix bug")] },
             { source := "agent", action := some "run",
               args := [("thought", "run tests"), ("command", "pytest")] },
             { observation := some "run", content := some "2 passed" }]).get ⟨i, hi⟩) :=
  (c1_toolmessage_invariants
      [{ source := "user", action := some "message",
         args := [("content", "fix bug")] },
       { source := "agent", action := some "run",
         args := [("thought", "run tests"), ("command", "pytest")] },
       { observation := some "run", content := some "2 passed" }]).2.1
    2 (by decide) "2 passed" "call_1" "bash" (by decide)

/-- C6: the concrete three-event history converts to exactly the user message,
the invocation-bearing assistant message with call `bash`/`call_1` and
arguments mapping the command to `pytest`, and the tool result correlated by
`call_1`. -/
theorem c6_concrete_history :
    convert_openhands_history_to_messages
      [{ source := "user", action := some "message",
         args := [("content", "fix bug")] },
       { source := "agent", action := some "run",
         args := [("thought", "run tests"), ("command", "pytest")] },
       { observation := some "run", content := some "2 passed" }] =
      [Message.UserMessage "fix bug",
       Message.AssistantMessage "run tests"
         [⟨"call_1", "bash", [("command", "pytest")],
           ⟨"markdown", "```bash\npytest\n```"⟩⟩],
       Message.ToolMessage "2 passed" "call_1" "bash"] := by decide

/-- C3 counterexample: the bare-agent-message branch is reachable.  A history
with a single event whose source is `agent` and whose action is `message`
reaches rule 4, which appends an `AssistantMessage`; under the claim the
branch would never append and this conversion would be empty. -/
theorem c3_counterexample :
    convert_openhands_history_to_messages
      [{ source := "agent", action := some "message",
         args := [("content", "hi")] }] =
      [Message.AssistantMessage "hi" []]
    ∧ convert_openhands_history_to_messages
        [{ source := "agent", action := some "message",
           args := [("content", "hi")] }] ≠ [] := by
  refine ⟨by decide, by decide⟩

/-- C3 amended: the bare-agent-message branch is reachable, and it is reached
exactly by the events with source `agent` and action `message`: on those the
step appends an `AssistantMessage` when the resolved content is non-empty,
appends nothing otherwise, and always clears the pending-call slot. -/
theorem c3_amended_rule4_reachable (s : ConvState) (e : Event)
    (hsrc : e.source = "agent") (hact : e.action = some "message") :
    stepEvent s e =
      (⟨none, s.counter⟩,
       if pyOr (argsGet e.args "content") (eventText e) = "" then []
       else [Message.AssistantMessage
               (pyOr (argsGet e.args "content") (eventText e)) []]) := by
  simp [stepEvent, hsrc, hact]

/-- Witness for the amended C3: a concrete agent-message event, processed with
a pending call, appends an assistant message and clears the slot. -/
theorem c3_amended_rule4_reachable_witness :
    stepEvent ⟨some ("bash", "call_1"), 5⟩
      { source := "agent", action := some "message",
        args := [("content", "hi")] } =
      (⟨none, 5⟩, [Message.AssistantMessage "hi" []]) := by
  rw [c3_amended_rule4_reachable ⟨some ("bash", "call_1"), 5⟩
    { source := "agent", action := some "message", args := [("content", "hi")] }
    rfl rfl]
  decide

/-- C2 counterexample: an agent `run` invocation with an empty thought still
appends an `AssistantMessage` (with empty text, carrying the invocation), and
a user message whose content is whitespace-only (truthy in Python) appends a
`UserMessage`; under the claim neither event would append a message. -/
theorem c2_counterexample :
    convert_openhands_history_to_messages
      [{ source := "agent", action := some "run",
         args := [("thought", ""), ("command", "ls")] }] =
      [Message.AssistantMessage ""
        [⟨"call_1", "bash", [("command", "ls")],
          ⟨"markdown", "```bash\nls\n```"⟩⟩]]
    ∧ convert_openhands_history_to_messages
        [{ source := "user", action := some "message",
           args := [("content", " ")] }] =
        [Message.UserMessage " "] := by
  refine ⟨by decide, by decide⟩

/-- C2 amended: for user messages (step 2) and bare agent messages (step 4),
an event whose resolved text is the empty string appends no message (step 4
still clears the pending slot); whitespace-only text is truthy and is not
covered; for invocation-bearing agent actions (step 3) an `AssistantMessage`
is appended even when the thought text is empty, and the side effects (fresh
call identifier, counter bump, pending-call update) occur regardless. -/
theorem c2_amended_empty_text (s : ConvState) (e : Event) :
    (e.source = "user" → e.action = some "message" →
      pyOr (argsGet e.args "content") (eventText e) = "" →
      stepEvent s e = (s, []))
    ∧ (e.source = "agent" → e.action = some "message" →
      pyOr (argsGet e.args "content") (eventText e) = "" →
      stepEvent s e = (⟨none, s.counter⟩, []))
    ∧ (∀ a, e.source = "agent" → e.action = some a →
      a ≠ "" → a ≠ "message" → a ≠ "system" → a ≠ "think" → a ≠ "finish" →
      argsGet e.args "thought" = "" →
      ∃ fn arg v, stepEvent s e =
        (⟨some (fn, mkId s.counter), s.counter + 1⟩,
         [Message.AssistantMessage "" [⟨mkId s.counter, fn, arg, v⟩]])) := by
  refine ⟨?_, ?_, ?_⟩
  · intro hsrc hact hmsg
    simp [stepEvent, hsrc, hact, hmsg]
  · intro hsrc hact hmsg
    rw [c3_amended_rule4_reachable s e hsrc hact, hmsg]
    simp
  · intro a hsrc hact hne hnm hns hnt hnf hth
    have hstep : stepEvent s e = agentDispatch s e a := by
      simp [stepEvent, hsrc, hact, hne, hnm, hns]
    rw [hstep]
    unfold agentDispatch invokeMsg
    rw [hth]
    by_cases h1 : a = "run"
    · exact ⟨"bash", [("command", argsGet e.args "command")],
        ⟨"markdown", "```bash\n" ++ argsGet e.args "command" ++ "\n```"⟩,
        by simp [h1]⟩
    · by_cases h2 : a = "read"
      · exact ⟨"read_file", [("path", argsGet e.args "path")],
          ⟨"markdown", "Reading file: `" ++ argsGet e.args "path" ++ "`"⟩,
          by simp [h1, h2]⟩
      · by_cases h3 : a = "write"
        · exact ⟨"write_file", [("path", argsGet e.args "path")],
            ⟨"markdown", "Writing to file: `" ++ argsGet e.args "path" ++
              "`\n```\n" ++ writePreview (argsGet e.args "content") ++ "\n```"⟩,
            by simp [h1, h2, h3]⟩
        · exact ⟨a, e.args, ⟨"markdown", "Action: " ++ a⟩,
            by simp [h1, h2, h3, hnt, hnf]⟩

/-- Witness for the amended C2 at concrete inputs: an empty user message is
dropped; an empty-thought `run` invocation appends an invocation-bearing
assistant message with the next identifier `call_7` and bumps the counter. -/
theorem c2_amended_empty_text_witness :
    stepEvent ⟨none, 7⟩ { source := "user", action := some "message" } =
      (⟨none, 7⟩, [])
    ∧ ∃ fn arg v, stepEvent ⟨none, 7⟩
        { source := "agent", action := some "run",
          args := [("thought", ""), ("command", "ls")] } =
        (⟨some (fn, mkId 7), 8⟩,
         [Message.AssistantMessage "" [⟨mkId 7, fn, arg, v⟩]]) := by
  constructor
  · exact (c2_amended_empty_text ⟨none, 7⟩
      { source := "user", action := some "message" }).1 rfl rfl (by decide)
  · exact (c2_amended_empty_text ⟨none, 7⟩
      { source := "agent", action := some "run",
        args := [("thought", ""), ("command", "ls")] }).2.2 "run" rfl rfl
      (by decide) (by decide) (by decide) (by decide) (by decide) (by decide)

theorem stepEvent_orphan {s : ConvState} {e : Event} (hp : s.pending = none)
    (ha : e.action = none) : stepEvent s e = (s, []) := by
  rcases hobs : e.observation with _ | o <;>
    simp [stepEvent, ha, observeStep, hp, hobs]

theorem convertGo_append (xs : List Event) :
    ∀ (s : ConvState) (ys : List Event),
      convertGo s (xs ++ ys) = convertGo s xs ++ convertGo (stateGo s xs) ys := by
  induction xs with
  | nil => intro s ys; simp [convertGo, stateGo]
  | cons x xs ih =>
    intro s ys
    simp only [List.cons_append, convertGo, stateGo]
    rw [show xs.append ys = xs ++ ys from rfl, ih, List.append_assoc]

/-- C8: an observation event that arrives while no call is pending appends no
message and leaves the converter state unchanged, so the conversion of the
whole history equals the conversion with that event removed. -/
theorem c8_orphan_observation (h1 h2 : List Event) (e : Event)
    (hp : (stateGo initState h1).pending = none)
    (ha : e.action = none)
    (ho : ∃ o, e.observation = some o ∧ o ≠ "") :
    stepEvent (stateGo initState h1) e = (stateGo initState h1, [])
    ∧ convert_openhands_history_to_messages (h1 ++ e :: h2) =
      convert_openhands_history_to_messages (h1 ++ h2) := by
  have hstep := stepEvent_orphan hp ha
  refine ⟨hstep, ?_⟩
  show convertGo initState (h1 ++ e :: h2) = convertGo initState (h1 ++ h2)
  rw [convertGo_append, convertGo_append]
  rw [show convertGo (stateGo initState h1) (e :: h2) =
      (stepEvent (stateGo initState h1) e).2 ++
        convertGo (stepEvent (stateGo initState h1) e).1 h2 from rfl]
  rw [hstep]
  simp

/-- Witness for C8: an orphan observation at the head of a history is dropped
and the rest converts as if it were absent. -/
theorem c8_orphan_observation_witness :
    stepEvent (stateGo initState [])
      { observation := some "run", content := some "ignored" } =
      (stateGo initState [], [])
    ∧ convert_openhands_history_to_messages
        ([] ++ { observation := some "run", content := some "ignored" } ::
          [{ source := "user", action := some "message",
             args := [("content", "hello")] }]) =
      convert_openhands_history_to_messages
        ([] ++ [{ source := "user", action := some "message",
                  args := [("content", "hello")] }]) :=
  c8_orphan_observation []
    [{ source := "user", action := some "message",
       args := [("content", "hello")] }]
    { observation := some "run", content := some "ignored" }
    rfl rfl ⟨"run", rfl, by decide⟩

/-- The per-line conversion loop of `ingest_trajectories`: each trajectory's
history is converted independently by a fresh call. -/
def ingest_convert_batch (runs : List (List Event)) : List (List Message) :=
  runs.map convert_openhands_history_to_messages

/-- C9: the conversion is deterministic and pure.  In a batch of conversions,
two lines carrying the same event history convert to identical message
sequences, regardless of their positions and of any conversions performed
between them: no counter or pending state leaks across invocations. -/
theorem c9_conversion_pure (runs : List (List Event)) (i j : Nat)
    (hi : i < (ingest_convert_batch runs).length)
    (hj : j < (ingest_convert_batch runs).length)
    (hin : i < runs.length) (hjn : j < runs.length)
    (heq : runs.get ⟨i, hin⟩ = runs.get ⟨j, hjn⟩) :
    (ingest_convert_batch runs).get ⟨i, hi⟩ =
      (ingest_convert_batch runs).get ⟨j, hj⟩ := by
  rw [List.get_eq_getElem, List.get_eq_getElem]
  simp only [ingest_convert_batch, List.getElem_map]
  rw [List.get_eq_getElem, List.get_eq_getElem] at heq
  rw [heq]

/-- Witness for C9: a batch whose two lines are the same history yields the
same conversion twice, the second starting again at `call_1`. -/
theorem c9_conversion_pure_witness :
    (ingest_convert_batch
      [[{ source := "agent", action := some "run",
          args := [("command", "ls")] }],
       [{ source := "agent", action := some "run",
          args := [("command", "ls")] }]]).get ⟨0, by decide⟩ =
    (ingest_convert_batch
      [[{ source := "agent", action := some "run",
          args := [("command", "ls")] }],
       [{ source := "agent", action := some "run",
          args := [("command", "ls")] }]]).get ⟨1, by decide⟩ :=
  c9_conversion_pure _ 0 1 (by decide) (by decide) (by decide) (by decide)
    (by decide)

theorem string_length_take (c : String) (n : Nat) :
    (c.take n).length = min n c.length := by
  show (c.take n).data.length = min n c.data.length
  rw [String.data_take]
  exact List.length_take n c.data

/-- C7: for a write action whose content exceeds 500 characters, the rendered
preview is the first 500 characters followed by the ellipsis marker and has
length exactly 503; for an observation result text longer than 5000
characters, the stored `ToolMessage` content is the first 5000 characters of
the original followed by the truncation marker. -/
theorem c7_truncation_laws (s s2 : ConvState) (e e2 : Event)
    (fn0 cid0 : String)
    (hsrc : e.source = "agent") (hact : e.action = some "write")
    (hlong : (argsGet e.args "content").length > 500)
    (hp : s2.pending = some (fn0, cid0)) (hact2 : e2.action = none)
    (hobs : ∃ o, e2.observation = some o ∧ o ≠ "")
    (hlong2 : (obsText e2).length > 5000) :
    (stepEvent s e =
      (⟨some ("write_file", mkId s.counter), s.counter + 1⟩,
       [Message.AssistantMessage (argsGet e.args "thought")
         [⟨mkId s.counter, "write_file", [("path", argsGet e.args "path")],
           ⟨"markdown",
            "Writing to file: `" ++ argsGet e.args "path" ++ "`\n```\n" ++
              ((argsGet e.args "content").take 500 ++ "...") ++ "\n```"⟩⟩]])
     ∧ ((argsGet e.args "content").take 500 ++ "...").length = 503)
    ∧ stepEvent s2 e2 =
      (⟨none, s2.counter⟩,
       [Message.ToolMessage ((obsText e2).take 5000 ++ "\n... (truncated)")
          cid0 fn0]) := by
  refine ⟨⟨?_, ?_⟩, ?_⟩
  · have hstep : stepEvent s e = agentDispatch s e "write" := by
      simp [stepEvent, hsrc, hact]
    rw [hstep]
    unfold agentDispatch invokeMsg
    rw [show writePreview (argsGet e.args "content") =
        (argsGet e.args "content").take 500 ++ "..." from by
      unfold writePreview
      rw [if_pos hlong]]
    simp
  · rw [String.length_append, string_length_take]
    have h3 : ("..." : String).length = 3 := by decide
    omega
  · rcases hobs with ⟨o, ho, hone⟩
    have htr : truncateObservation (obsText e2) =
        (obsText e2).take 5000 ++ "\n... (truncated)" := by
      unfold truncateObservation
      rw [if_pos hlong2]
    rcases hps : s2.pending with _ | p
    · rw [hps] at hp; cases hp
    · have hpv : p = (fn0, cid0) := by
        rw [hps] at hp
        injection hp
      subst hpv
      simp [stepEvent, hact2, observeStep, ho, hps, hone, htr]

/-- Witness for C7 at concrete inputs: a 501-character write preview has
length 503, and a 5001-character observation is stored truncated to its first
5000 characters plus the marker. -/
theorem c7_truncation_laws_witness :
    ((String.mk (List.replicate 501 'a')).take 500 ++ "...").length = 503
    ∧ stepEvent ⟨some ("bash", "call_1"), 2⟩
        { action := none, observation := some "run",
          content := some (String.mk (List.replicate 5001 'b')) } =
        (⟨none, 2⟩,
         [Message.ToolMessage
            ((String.mk (List.replicate 5001 'b')).take 5000 ++
              "\n... (truncated)") "call_1" "bash"]) := by
  have harg : argsGet [("path", "f"), ("content", String.mk (List.replicate 501 'a'))]
      "content" = String.mk (List.replicate 501 'a') := rfl
  have hobs : obsText { action := none, observation := some "run", content := some (String.mk (List.replicate 5001 'b')) } = String.mk (List.replicate 5001 'b') := rfl
  have hlen1 : (String.mk (List.replicate 501 'a')).length = 501 := by
    show (List.replicate 501 'a').length = 501
    rw [List.length_replicate]
  have hlen2 : (String.mk (List.replicate 5001 'b')).length = 5001 := by
    show (List.replicate 5001 'b').length = 5001
    rw [List.length_replicate]
  have hx := c7_truncation_laws ⟨none, 1⟩ ⟨some ("bash", "call_1"), 2⟩
    { source := "agent", action := some "write",
      args := [("path", "f"), ("content", String.mk (List.replicate 501 'a'))] }
    { action := none, observation := some "run",
      content := some (String.mk (List.replicate 5001 'b')) }
    "bash" "call_1" rfl rfl (by rw [harg, hlen1]; omega) rfl rfl
    ⟨"run", rfl, by decide⟩ (by rw [hobs, hlen2]; omega)
  refine ⟨?_, ?_⟩
  · have := hx.1.2
    rwa [harg] at this
  · have := hx.2
    rwa [hobs] at this

theorem jLookup_cons_self (k : String) (v : JVal)
    (rest : List (String × JVal)) : jLookup ((k, v) :: rest) k = some v := by
  unfold jLookup
  rw [List.find?_cons_of_pos _ (by simp)]

theorem jLookup_cons_ne (kv : String × JVal) (rest : List (String × JVal))
    (k : String) (h : kv.1 ≠ k) : jLookup (kv :: rest) k = jLookup rest k := by
  unfold jLookup
  rw [List.find?_cons_of_neg _ (by simpa using h)]

theorem jLookup_append_of_notkey {xs : List (String × JVal)}
    (ys : List (String × JVal)) (k : String)
    (h : ∀ kv ∈ xs, kv.1 ≠ k) : jLookup (xs ++ ys) k = jLookup ys k := by
  unfold jLookup
  rw [List.find?_append]
  have hx : xs.find? (fun kv => kv.1 == k) = none :=
    List.find?_eq_none.2 (fun kv hm => by simpa using h kv hm)
  rw [hx]
  rfl

theorem jLookup_jSet_self (kvs : List (String × JVal)) (k : String) (v : JVal) :
    jLookup (jSet kvs k v) k = some v := by
  induction kvs with
  | nil => exact jLookup_cons_self k v []
  | cons kv rest ih =>
    by_cases h : kv.1 = k
    · rw [jSet, if_pos h]
      exact jLookup_cons_self k v rest
    · rw [jSet, if_neg h, jLookup_cons_ne kv _ k h]
      exact ih

theorem jLookup_cons_hit (kv : String × JVal) (rest : List (String × JVal))
    (k : String) (h : kv.1 = k) : jLookup (kv :: rest) k = some kv.2 := by
  unfold jLookup
  rw [List.find?_cons_of_pos _ (by simpa using h)]

theorem jLookup_jSet_ne (kvs : List (String × JVal)) (k k2 : String) (v : JVal)
    (h : k2 ≠ k) : jLookup (jSet kvs k v) k2 = jLookup kvs k2 := by
  have hkv : ((k, v) : String × JVal).1 ≠ k2 := fun hx => h hx.symm
  induction kvs with
  | nil =>
    rw [show jSet [] k v = [(k, v)] from rfl]
    rw [jLookup_cons_ne (k, v) [] k2 hkv]
  | cons kv rest ih =>
    by_cases hk : kv.1 = k
    · rw [jSet, if_pos hk]
      rw [jLookup_cons_ne (k, v) rest k2 hkv]
      rw [jLookup_cons_ne kv rest k2 (by rw [hk]; exact fun hx => h hx.symm)]
    · rw [jSet, if_neg hk]
      by_cases h2 : kv.1 = k2
      · rw [jLookup_cons_hit kv _ k2 h2, jLookup_cons_hit kv _ k2 h2]
      · rw [jLookup_cons_ne kv _ k2 h2, jLookup_cons_ne kv _ k2 h2, ih]

theorem metaBlocks_ne_scores (traj : List (String × JVal)) :
    ∀ kv ∈ metaAgentBlock traj ++ metaMetricsBlock traj ++
        metaInstanceBlock traj ++ metaPatchBlock traj, kv.1 ≠ "scores" := by
  intro kv hm
  simp only [List.mem_append] at hm
  rcases hm with ((h | h) | h) | h
  · unfold metaAgentBlock at h
    split at h
    · rcases List.mem_cons.1 h with rfl | h2
      · simp
      · rcases List.mem_cons.1 h2 with rfl | h3
        · simp
        · cases h3
    · cases h
  · unfold metaMetricsBlock at h
    split at h
    · rcases List.mem_cons.1 h with rfl | h2
      · simp
      · cases h2
    · cases h
  · unfold metaInstanceBlock at h
    split at h
    · rcases List.mem_cons.1 h with rfl | h2
      · simp
      · rcases List.mem_cons.1 h2 with rfl | h3
        · simp
        · cases h3
    · cases h
  · unfold metaPatchBlock at h
    split at h
    · rcases List.mem_cons.1 h with rfl | h2
      · simp
      · cases h2
    · cases h

theorem jLookup_filter_scores (pre post : List (String × JVal)) (sc : JVal)
    (hkeys : ∀ kv ∈ pre, kv.1 ≠ "scores") (hsc : jIsNull sc = false) :
    jLookup ((pre ++ (("scores", sc) :: post)).filter
      (fun kv => !jIsNull kv.2)) "scores" = some sc := by
  induction pre with
  | nil =>
    rw [List.nil_append, List.filter_cons]
    rw [show (!jIsNull (("scores", sc) : String × JVal).2) = true from by
      simp [hsc]]
    simp only [if_pos]
    exact jLookup_cons_self "scores" sc _
  | cons kv pre ih =>
    have hk : kv.1 ≠ "scores" := hkeys kv (List.mem_cons_self _ _)
    have ht : ∀ kv2 ∈ pre, kv2.1 ≠ "scores" :=
      fun kv2 h2 => hkeys kv2 (List.mem_cons_of_mem _ h2)
    rw [List.cons_append, List.filter_cons]
    by_cases hnull : (!jIsNull kv.2) = true
    · rw [if_pos hnull, jLookup_cons_ne kv _ "scores" hk]
      exact ih ht
    · rw [if_neg hnull]
      exact ih ht

theorem lookup_scores_meta (iid : String) (traj : List (String × JVal))
    (logs rr : Option (List (String × JVal))) (mn : Option String) :
    jLookup (build_agent_run_metadata iid traj logs rr mn) "scores" =
      some (JVal.obj (buildScores iid logs rr)) := by
  unfold build_agent_run_metadata
  rw [show (("instance_id", JVal.str iid) ::
      (metaAgentBlock traj ++ metaMetricsBlock traj ++
       metaInstanceBlock traj ++ metaPatchBlock traj)) ++
      (("scores", JVal.obj (buildScores iid logs rr)) :: metaModelBlock mn) =
      (("instance_id", JVal.str iid) ::
      (metaAgentBlock traj ++ metaMetricsBlock traj ++
       metaInstanceBlock traj ++ metaPatchBlock traj)) ++
      (("scores", JVal.obj (buildScores iid logs rr)) :: metaModelBlock mn)
      from rfl]
  refine jLookup_filter_scores _ _ _ ?_ rfl
  intro kv hm
  rcases List.mem_cons.1 hm with rfl | h2
  · simp
  · exact metaBlocks_ne_scores traj kv h2

theorem statusOverride_lookup_ne (iid : String)
    (rro : Option (List (String × JVal))) (scores : List (String × JVal))
    (k : String) (hk : k ≠ "status") :
    jLookup (statusOverride iid rro scores) k = jLookup scores k := by
  unfold statusOverride
  match rro with
  | none => rfl
  | some rr =>
    dsimp only
    by_cases h0 : rr.isEmpty
    · simp [h0]
    · rw [if_neg h0]
      by_cases h1 : jmemStr (jGetD (asObj (jGetD rr "instance_sets" (JVal.obj [])))
          "passed_ids" (JVal.arr [])) iid
      · rw [if_pos h1]; exact jLookup_jSet_ne _ _ _ _ hk
      · rw [if_neg h1]
        by_cases h2 : jmemStr (jGetD (asObj (jGetD rr "instance_sets" (JVal.obj [])))
            "opt_base_ids" (JVal.arr [])) iid
        · rw [if_pos h2]; exact jLookup_jSet_ne _ _ _ _ hk
        · rw [if_neg h2]
          by_cases h3 : jmemStr (jGetD (asObj (jGetD rr "instance_sets" (JVal.obj [])))
              "test_failed_ids" (JVal.arr [])) iid
          · rw [if_pos h3]; exact jLookup_jSet_ne _ _ _ _ hk
          · rw [if_neg h3]
            by_cases h4 : jmemStr (jGetD (asObj (jGetD rr "instance_sets" (JVal.obj [])))
                "patch_failed_ids" (JVal.arr [])) iid
            · rw [if_pos h4]; exact jLookup_jSet_ne _ _ _ _ hk
            · rw [if_neg h4]
              by_cases h5 : jmemStr (jGetD (asObj (jGetD rr "instance_sets" (JVal.obj [])))
                  "error_ids" (JVal.arr [])) iid
              · rw [if_pos h5]; exact jLookup_jSet_ne _ _ _ _ hk
              · rw [if_neg h5]

theorem statusOverride_status_cases (iid : String)
    (rro : Option (List (String × JVal))) (scores : List (String × JVal)) :
    (∃ lab, lab ∈ (["passed", "opt_base", "test_failed", "patch_failed",
        "error"] : List String) ∧
      jLookup (statusOverride iid rro scores) "status" =
        some (JVal.str lab)) ∨
    statusOverride iid rro scores = scores := by
  unfold statusOverride
  match rro with
  | none => right; rfl
  | some rr =>
    dsimp only
    by_cases h0 : rr.isEmpty
    · right; simp [h0]
    · rw [if_neg h0]
      by_cases h1 : jmemStr (jGetD (asObj (jGetD rr "instance_sets" (JVal.obj [])))
          "passed_ids" (JVal.arr [])) iid
      · rw [if_pos h1]
        exact Or.inl ⟨"passed", by simp, jLookup_jSet_self _ _ _⟩
      · rw [if_neg h1]
        by_cases h2 : jmemStr (jGetD (asObj (jGetD rr "instance_sets" (JVal.obj [])))
            "opt_base_ids" (JVal.arr [])) iid
        · rw [if_pos h2]
          exact Or.inl ⟨"opt_base", by simp, jLookup_jSet_self _ _ _⟩
        · rw [if_neg h2]
          by_cases h3 : jmemStr (jGetD (asObj (jGetD rr "instance_sets" (JVal.obj [])))
              "test_failed_ids" (JVal.arr [])) iid
          · rw [if_pos h3]
            exact Or.inl ⟨"test_failed", by simp, jLookup_jSet_self _ _ _⟩
          · rw [if_neg h3]
            by_cases h4 : jmemStr (jGetD (asObj (jGetD rr "instance_sets" (JVal.obj [])))
                "patch_failed_ids" (JVal.arr [])) iid
            · rw [if_pos h4]
              exact Or.inl ⟨"patch_failed", by simp, jLookup_jSet_self _ _ _⟩
            · rw [if_neg h4]
              by_cases h5 : jmemStr (jGetD (asObj (jGetD rr "instance_sets" (JVal.obj [])))
                  "error_ids" (JVal.arr [])) iid
              · rw [if_pos h5]
                exact Or.inl ⟨"error", by simp, jLookup_jSet_self _ _ _⟩
              · rw [if_neg h5]; right; rfl

theorem scoresFromReport_status_cases (logs : Option (List (String × JVal))) :
    scoresFromReport logs = [("status", JVal.str "unknown")] ∨
    jLookup (scoresFromReport logs) "status" = none := by
  unfold scoresFromReport
  match logs with
  | none => left; rfl
  | some rep =>
    dsimp only
    by_cases h : rep.isEmpty
    · left; simp [h]
    · right
      rw [if_neg h]
      by_cases h2 : jTruthy (jGetD rep "opt_stats" (JVal.obj []))
      · simp only [h2, if_true]
        simp [jLookup]
      · simp only [h2, Bool.false_eq_true, if_false]
        simp [jLookup]

theorem scoresFromReport_gm (rep os : List (String × JVal))
    (hos : jLookup rep "opt_stats" = some (JVal.obj os))
    (hosne : os.isEmpty = false) :
    scoresFromReport (some rep) =
      [("test_passed", jGetD rep "test_passed" (JVal.bool false)),
       ("opt_base", jGetD rep "opt_base" (JVal.bool false)),
       ("opt_commit", jGetD rep "opt_commit" (JVal.bool false)),
       ("opt_main", jGetD rep "opt_main" (JVal.bool false)),
       ("patch_applied", jGetD rep "patch_successfully_applied" (JVal.bool false))] ++
      [("gm_speedup_patch_base",
        (jLookup os "gm_speedup_patch_base").getD JVal.null),
       ("gm_speedup_patch_commit",
        (jLookup os "gm_speedup_patch_commit").getD JVal.null)] := by
  have hrep : rep.isEmpty = false := by
    cases rep with
    | nil => cases hos
    | cons kv rest => rfl
  have hget : jGetD rep "opt_stats" (JVal.obj []) = JVal.obj os := by
    unfold jGetD
    rw [hos]
    rfl
  unfold scoresFromReport
  dsimp only
  rw [if_neg (by rw [hrep]; simp)]
  rw [hget]
  rw [if_pos (by simp [jTruthy, hosne])]
  rfl

theorem scoresFromReport_base_keys (rep : List (String × JVal)) :
    ∀ kv ∈ ([("test_passed", jGetD rep "test_passed" (JVal.bool false)),
       ("opt_base", jGetD rep "opt_base" (JVal.bool false)),
       ("opt_commit", jGetD rep "opt_commit" (JVal.bool false)),
       ("opt_main", jGetD rep "opt_main" (JVal.bool false)),
       ("patch_applied", jGetD rep "patch_successfully_applied" (JVal.bool false))] :
        List (String × JVal)),
      kv.1 ≠ "gm_speedup_patch_base" ∧ kv.1 ≠ "gm_speedup_patch_commit" := by
  intro kv hm
  simp only [List.mem_cons, List.not_mem_nil, or_false] at hm
  rcases hm with rfl | rfl | rfl | rfl | rfl <;> exact ⟨by simp, by simp⟩

/-- C10: the null-value comprehension of `build_agent_run` filters only
top-level metadata keys.  The returned metadata never maps a top-level key to
null, yet when an `opt_stats` sub-block is present (and truthy) but lacks
`gm_speedup_patch_base` or `gm_speedup_patch_commit`, the nested scores
mapping carries that key bound to null rather than omitting it. -/
theorem c10_nested_null_speedups (iid : String) (traj : List (String × JVal))
    (rep os : List (String × JVal)) (rr : Option (List (String × JVal)))
    (mn : Option String)
    (hos : jLookup rep "opt_stats" = some (JVal.obj os))
    (hosne : os.isEmpty = false) :
    (∀ kv ∈ build_agent_run_metadata iid traj (some rep) rr mn,
       jIsNull kv.2 = false)
    ∧ (jLookup os "gm_speedup_patch_base" = none →
        ∀ sc, jLookup (build_agent_run_metadata iid traj (some rep) rr mn)
            "scores" = some (JVal.obj sc) →
          jLookup sc "gm_speedup_patch_base" = some JVal.null)
    ∧ (jLookup os "gm_speedup_patch_commit" = none →
        ∀ sc, jLookup (build_agent_run_metadata iid traj (some rep) rr mn)
            "scores" = some (JVal.obj sc) →
          jLookup sc "gm_speedup_patch_commit" = some JVal.null) := by
  have hgm := scoresFromReport_gm rep os hos hosne
  refine ⟨?_, ?_, ?_⟩
  · intro kv hm
    unfold build_agent_run_metadata at hm
    have h2 := (List.mem_filter.1 hm).2
    simpa using h2
  · intro hbase sc hlook
    rw [lookup_scores_meta] at hlook
    have hsc : sc = buildScores iid (some rep) rr := by
      injection hlook with h3
      injection h3 with h4
      exact h4.symm
    subst hsc
    unfold buildScores
    rw [statusOverride_lookup_ne _ _ _ _ (by simp)]
    rw [hgm]
    rw [jLookup_append_of_notkey _ _
      (fun kv hm => (scoresFromReport_base_keys rep kv hm).1)]
    rw [jLookup_cons_self]
    rw [hbase]
    rfl
  · intro hcommit sc hlook
    rw [lookup_scores_meta] at hlook
    have hsc : sc = buildScores iid (some rep) rr := by
      injection hlook with h3
      injection h3 with h4
      exact h4.symm
    subst hsc
    unfold buildScores
    rw [statusOverride_lookup_ne _ _ _ _ (by simp)]
    rw [hgm]
    rw [jLookup_append_of_notkey _ _
      (fun kv hm => (scoresFromReport_base_keys rep kv hm).2)]
    rw [jLookup_cons_ne _ _ _ (by simp)]
    rw [jLookup_cons_self]
    rw [hcommit]
    rfl

/-- Witness for C10: with an `opt_stats` block carrying only the base speedup,
the scores mapping binds `gm_speedup_patch_commit` to null, while the
top-level metadata keeps no null values. -/
theorem c10_nested_null_speedups_witness :
    jLookup
      [("test_passed", JVal.bool false), ("opt_base", JVal.bool false),
       ("opt_commit", JVal.bool false), ("opt_main", JVal.bool false),
       ("patch_applied", JVal.bool false),
       ("gm_speedup_patch_base", JVal.num 2),
       ("gm_speedup_patch_commit", JVal.null)]
      "gm_speedup_patch_commit" = some JVal.null :=
  (c10_nested_null_speedups "iid" []
      [("opt_stats", JVal.obj [("gm_speedup_patch_base", JVal.num 2)])]
      [("gm_speedup_patch_base", JVal.num 2)] none none rfl rfl).2.2 rfl
    [("test_passed", JVal.bool false), ("opt_base", JVal.bool false),
     ("opt_commit", JVal.bool false), ("opt_main", JVal.bool false),
     ("patch_applied", JVal.bool false),
     ("gm_speedup_patch_base", JVal.num 2),
     ("gm_speedup_patch_commit", JVal.null)] rfl

/-- C5 counterexample: when an instance-level report is supplied and no
run-level report is, the scores mapping is replaced by the five explicit
fields and contains no `status` key at all. -/
theorem c5_counterexample :
    jLookup (buildScores "iid" (some [("test_passed", JVal.bool true)]) none)
      "status" = none
    ∧ jLookup (build_agent_run_metadata "iid" []
        (some [("test_passed", JVal.bool true)]) none none) "scores" =
      some (JVal.obj
        [("test_passed", JVal.bool true), ("opt_base", JVal.bool false),
         ("opt_commit", JVal.bool false), ("opt_main", JVal.bool false),
         ("patch_applied", JVal.bool false)]) :=
  ⟨rfl, rfl⟩

/-- C5 amended: whenever the scores mapping carries a `status` key its value
is one of the six labels `unknown`, `passed`, `opt_base`, `test_failed`,
`patch_failed`, `error`; the key is always present when no instance-level
report is used (absent logs directory or missing per-instance report), but it
is absent when an instance report is supplied and the run-report membership
check sets no label. -/
theorem c5_amended_status_values (iid : String) (traj : List (String × JVal))
    (logs rr : Option (List (String × JVal))) (mn : Option String) :
    (∀ sc, jLookup (build_agent_run_metadata iid traj logs rr mn) "scores" =
        some (JVal.obj sc) →
      ∀ v, jLookup sc "status" = some v →
        v ∈ ([JVal.str "unknown", JVal.str "passed", JVal.str "opt_base",
              JVal.str "test_failed", JVal.str "patch_failed",
              JVal.str "error"] : List JVal))
    ∧ ((logs = none ∨ logs = some []) →
      ∀ sc, jLookup (build_agent_run_metadata iid traj logs rr mn) "scores" =
          some (JVal.obj sc) →
        ∃ v, jLookup sc "status" = some v) := by
  constructor
  · intro sc hlook v hv
    rw [lookup_scores_meta] at hlook
    have hsc : sc = buildScores iid logs rr := by
      injection hlook with h3
      injection h3 with h4
      exact h4.symm
    subst hsc
    unfold buildScores at hv
    rcases statusOverride_status_cases iid rr (scoresFromReport logs) with
      ⟨lab, hmem, hl⟩ | heq
    · rw [hl] at hv
      injection hv with h5
      subst h5
      simp only [List.mem_cons, List.not_mem_nil, or_false] at hmem ⊢
      rcases hmem with rfl | rfl | rfl | rfl | rfl <;> simp
    · rw [heq] at hv
      rcases scoresFromReport_status_cases logs with hs | hs
      · rw [hs] at hv
        rw [jLookup_cons_self] at hv
        injection hv with h5
        subst h5
        simp
      · rw [hs] at hv
        cases hv
  · intro hlogs sc hlook
    rw [lookup_scores_meta] at hlook
    have hsc : sc = buildScores iid logs rr := by
      injection hlook with h3
      injection h3 with h4
      exact h4.symm
    subst hsc
    have hs0 : scoresFromReport logs = [("status", JVal.str "unknown")] := by
      rcases hlogs with rfl | rfl <;> rfl
    unfold buildScores
    rcases statusOverride_status_cases iid rr (scoresFromReport logs) with
      ⟨lab, _, hl⟩ | heq
    · exact ⟨JVal.str lab, hl⟩
    · rw [heq, hs0]
      exact ⟨JVal.str "unknown", jLookup_cons_self _ _ _⟩

/-- Witness for the amended C5: with no reports at all, the scores mapping is
exactly the default and its status is `unknown`, a value in the allowed
set. -/
theorem c5_amended_status_values_witness :
    JVal.str "unknown" ∈
      ([JVal.str "unknown", JVal.str "passed", JVal.str "opt_base",
        JVal.str "test_failed", JVal.str "patch_failed",
        JVal.str "error"] : List JVal)
    ∧ ∃ v, jLookup [("status", JVal.str "unknown")] "status" = some v :=
  ⟨(c5_amended_status_values "x" [] none none none).1
      [("status", JVal.str "unknown")] rfl (JVal.str "unknown") rfl,
   (c5_amended_status_values "x" [] none none none).2 (Or.inl rfl)
      [("status", JVal.str "unknown")] rfl⟩

/-- C4: with a run-level report supplied (truthy), the status is set from
instance-id membership in the fixed precedence `passed_ids`, `opt_base_ids`,
`test_failed_ids`, `patch_failed_ids`, `error_ids`, taking the first matching
set's label; when no set matches, the scores of step 6 are returned
untouched.  At the concrete inputs of the spec the aggregate yields the five
explicit fields plus `status = "passed"`. -/
theorem c4_run_report_status (iid : String) (traj : List (String × JVal))
    (logs : Option (List (String × JVal))) (rr : List (String × JVal))
    (mn : Option String) (hrr : rr.isEmpty = false) :
    (jLookup (build_agent_run_metadata iid traj logs (some rr) mn) "scores" =
       some (JVal.obj (buildScores iid logs (some rr)))
     ∧ (jmemStr (jGetD (asObj (jGetD rr "instance_sets" (JVal.obj [])))
          "passed_ids" (JVal.arr [])) iid = true →
        jLookup (buildScores iid logs (some rr)) "status" =
          some (JVal.str "passed"))
     ∧ (jmemStr (jGetD (asObj (jGetD rr "instance_sets" (JVal.obj [])))
          "passed_ids" (JVal.arr [])) iid = false →
        jmemStr (jGetD (asObj (jGetD rr "instance_sets" (JVal.obj [])))
          "opt_base_ids" (JVal.arr [])) iid = true →
        jLookup (buildScores iid logs (some rr)) "status" =
          some (JVal.str "opt_base"))
     ∧ (jmemStr (jGetD (asObj (jGetD rr "instance_sets" (JVal.obj [])))
          "passed_ids" (JVal.arr [])) iid = false →
        jmemStr (jGetD (asObj (jGetD rr "instance_sets" (JVal.obj [])))
          "opt_base_ids" (JVal.arr [])) iid = false →
        jmemStr (jGetD (asObj (jGetD rr "instance_sets" (JVal.obj [])))
          "test_failed_ids" (JVal.arr [])) iid = true →
        jLookup (buildScores iid logs (some rr)) "status" =
          some (JVal.str "test_failed"))
     ∧ (jmemStr (jGetD (asObj (jGetD rr "instance_sets" (JVal.obj [])))
          "passed_ids" (JVal.arr [])) iid = false →
        jmemStr (jGetD (asObj (jGetD rr "instance_sets" (JVal.obj [])))
          "opt_base_ids" (JVal.arr [])) iid = false →
        jmemStr (jGetD (asObj (jGetD rr "instance_sets" (JVal.obj [])))
          "test_failed_ids" (JVal.arr [])) iid = false →
        jmemStr (jGetD (asObj (jGetD rr "instance_sets" (JVal.obj [])))
          "patch_failed_ids" (JVal.arr [])) iid = true →
        jLookup (buildScores iid logs (some rr)) "status" =
          some (JVal.str "patch_failed"))
     ∧ (jmemStr (jGetD (asObj (jGetD rr "instance_sets" (JVal.obj [])))
          "passed_ids" (JVal.arr [])) iid = false →
        jmemStr (jGetD (asObj (jGetD rr "instance_sets" (JVal.obj [])))
          "opt_base_ids" (JVal.arr [])) iid = false →
        jmemStr (jGetD (asObj (jGetD rr "instance_sets" (JVal.obj [])))
          "test_failed_ids" (JVal.arr [])) iid = false →
        jmemStr (jGetD (asObj (jGetD rr "instance_sets" (JVal.obj [])))
          "patch_failed_ids" (JVal.arr [])) iid = false →
        jmemStr (jGetD (asObj (jGetD rr "instance_sets" (JVal.obj [])))
          "error_ids" (JVal.arr [])) iid = true →
        jLookup (buildScores iid logs (some rr)) "status" =
          some (JVal.str "error"))
     ∧ (jmemStr (jGetD (asObj (jGetD rr "instance_sets" (JVal.obj [])))
          "passed_ids" (JVal.arr [])) iid = false →
        jmemStr (jGetD (asObj (jGetD rr "instance_sets" (JVal.obj [])))
          "opt_base_ids" (JVal.arr [])) iid = false →
        jmemStr (jGetD (asObj (jGetD rr "instance_sets" (JVal.obj [])))
          "test_failed_ids" (JVal.arr [])) iid = false →
        jmemStr (jGetD (asObj (jGetD rr "instance_sets" (JVal.obj [])))
          "patch_failed_ids" (JVal.arr [])) iid = false →
        jmemStr (jGetD (asObj (jGetD rr "instance_sets" (JVal.obj [])))
          "error_ids" (JVal.arr [])) iid = false →
        buildScores iid logs (some rr) = scoresFromReport logs))
    ∧ jLookup (build_agent_run_metadata "iid" []
        (some [("test_passed", JVal.bool true), ("opt_base", JVal.bool true)])
        (some [("instance_sets",
          JVal.obj [("passed_ids", JVal.arr [JVal.str "iid"])])])
        none) "scores" =
      some (JVal.obj
        [("test_passed", JVal.bool true), ("opt_base", JVal.bool true),
         ("opt_commit", JVal.bool false), ("opt_main", JVal.bool false),
         ("patch_applied", JVal.bool false),
         ("status", JVal.str "passed")]) := by
  refine ⟨⟨lookup_scores_meta iid traj logs (some rr) mn, ?_, ?_, ?_, ?_, ?_, ?_⟩,
    rfl⟩
  · intro h1
    unfold buildScores statusOverride
    dsimp only
    rw [if_neg (by rw [hrr]; simp), if_pos h1]
    exact jLookup_jSet_self _ _ _
  · intro h1 h2
    unfold buildScores statusOverride
    dsimp only
    rw [if_neg (by rw [hrr]; simp), if_neg (by rw [h1]; simp), if_pos h2]
    exact jLookup_jSet_self _ _ _
  · intro h1 h2 h3
    unfold buildScores statusOverride
    dsimp only
    rw [if_neg (by rw [hrr]; simp), if_neg (by rw [h1]; simp),
      if_neg (by rw [h2]; simp), if_pos h3]
    exact jLookup_jSet_self _ _ _
  · intro h1 h2 h3 h4
    unfold buildScores statusOverride
    dsimp only
    rw [if_neg (by rw [hrr]; simp), if_neg (by rw [h1]; simp),
      if_neg (by rw [h2]; simp), if_neg (by rw [h3]; simp), if_pos h4]
    exact jLookup_jSet_self _ _ _
  · intro h1 h2 h3 h4 h5
    unfold buildScores statusOverride
    dsimp only
    rw [if_neg (by rw [hrr]; simp), if_neg (by rw [h1]; simp),
      if_neg (by rw [h2]; simp), if_neg (by rw [h3]; simp),
      if_neg (by rw [h4]; simp), if_pos h5]
    exact jLookup_jSet_self _ _ _
  · intro h1 h2 h3 h4 h5
    unfold buildScores statusOverride
    dsimp only
    rw [if_neg (by rw [hrr]; simp), if_neg (by rw [h1]; simp),
      if_neg (by rw [h2]; simp), if_neg (by rw [h3]; simp),
      if_neg (by rw [h4]; simp), if_neg (by rw [h5]; simp)]

/-- Witness for C4: the concrete aggregate of the spec example carries
`status = "passed"` after the precedence check. -/
theorem c4_run_report_status_witness :
    jLookup (build_agent_run_metadata "iid" []
        (some [("test_passed", JVal.bool true), ("opt_base", JVal.bool true)])
        (some [("instance_sets",
          JVal.obj [("passed_ids", JVal.arr [JVal.str "iid"])])])
        none) "scores" =
      some (JVal.obj
        [("test_passed", JVal.bool true), ("opt_base", JVal.bool true),
         ("opt_commit", JVal.bool false), ("opt_main", JVal.bool false),
         ("patch_applied", JVal.bool false),
         ("status", JVal.str "passed")]) :=
  (c4_run_report_status "iid" []
      (some [("test_passed", JVal.bool true), ("opt_base", JVal.bool true)])
      [("instance_sets",
        JVal.obj [("passed_ids", JVal.arr [JVal.str "iid"])])]
      none rfl).2
